import Mathlib

/-!
Verification of the pixel-conversion core of swaylock's background-image
module (src/background-image.c): the format-normalization kernels
(cairo_rgb24_from_*), the transform-and-copy engine inside
load_background_from_buffer, and parse_background_mode.

The embedding models a little-endian host (the case the C source treats as
the common one; its runtime endianness probe selects that branch).  A pixel
buffer is a byte-addressed memory, machine words are naturals reduced
modulo 2^32 at each 32-bit store, and the C loops are structural
recursions that perform the same reads and writes in the same order.
-/

namespace Swaylock

/-- Byte-addressed memory: a total map from byte addresses to byte values. -/
abbrev Mem := Nat → Nat

/-- Read one byte (values are always reduced modulo 256). -/
def rd (m : Mem) (a : Nat) : Nat := m a % 256

/-- Write one byte. -/
def wr (m : Mem) (a v : Nat) : Mem := fun x => if x = a then v % 256 else m x

/-- Read a 32-bit word stored little-endian at address a,
mirroring a uint32 load on a little-endian host. -/
def readWord (m : Mem) (a : Nat) : Nat :=
  rd m a + 256 * rd m (a + 1) + 65536 * rd m (a + 2) + 16777216 * rd m (a + 3)

/-- Store a 32-bit word little-endian at address a,
mirroring a uint32 store on a little-endian host. -/
def writeWord (m : Mem) (a w : Nat) : Mem :=
  wr (wr (wr (wr m a w) (a + 1) (w / 256)) (a + 2) (w / 65536)) (a + 3) (w / 16777216)

theorem rd_lt (m : Mem) (a : Nat) : rd m a < 256 := Nat.mod_lt _ (by decide)

theorem rd_wr_self (m : Mem) (a v : Nat) : rd (wr m a v) a = v % 256 := by
  simp [rd, wr]

theorem rd_wr_ne (m : Mem) (a v x : Nat) (h : x ≠ a) : rd (wr m a v) x = rd m x := by
  simp [rd, wr, h]

theorem rd_writeWord_outside (m : Mem) (a w x : Nat) (h : x < a ∨ a + 4 ≤ x) :
    rd (writeWord m a w) x = rd m x := by
  unfold writeWord
  rw [rd_wr_ne _ _ _ _ (by omega), rd_wr_ne _ _ _ _ (by omega),
    rd_wr_ne _ _ _ _ (by omega), rd_wr_ne _ _ _ _ (by omega)]

theorem rd_writeWord_0 (m : Mem) (a w : Nat) : rd (writeWord m a w) a = w % 256 := by
  unfold writeWord
  rw [rd_wr_ne _ _ _ _ (by omega), rd_wr_ne _ _ _ _ (by omega),
    rd_wr_ne _ _ _ _ (by omega), rd_wr_self]

theorem rd_writeWord_1 (m : Mem) (a w : Nat) :
    rd (writeWord m a w) (a + 1) = w / 256 % 256 := by
  unfold writeWord
  rw [rd_wr_ne _ _ _ _ (by omega), rd_wr_ne _ _ _ _ (by omega), rd_wr_self]

theorem rd_writeWord_2 (m : Mem) (a w : Nat) :
    rd (writeWord m a w) (a + 2) = w / 65536 % 256 := by
  unfold writeWord
  rw [rd_wr_ne _ _ _ _ (by omega), rd_wr_self]

theorem rd_writeWord_3 (m : Mem) (a w : Nat) :
    rd (writeWord m a w) (a + 3) = w / 16777216 % 256 := by
  unfold writeWord
  rw [rd_wr_self]

theorem readWord_lt (m : Mem) (a : Nat) : readWord m a < 4294967296 := by
  have h0 := rd_lt m a
  have h1 := rd_lt m (a + 1)
  have h2 := rd_lt m (a + 2)
  have h3 := rd_lt m (a + 3)
  unfold readWord
  omega

theorem readWord_writeWord_self (m : Mem) (a w : Nat) :
    readWord (writeWord m a w) a = w % 4294967296 := by
  unfold readWord
  rw [rd_writeWord_0, rd_writeWord_1, rd_writeWord_2, rd_writeWord_3]
  omega

theorem readWord_writeWord_disjoint (m : Mem) (a w b : Nat)
    (h : b + 4 ≤ a ∨ a + 4 ≤ b) : readWord (writeWord m a w) b = readWord m b := by
  unfold readWord
  rw [rd_writeWord_outside _ _ _ _ (by omega), rd_writeWord_outside _ _ _ _ (by omega),
    rd_writeWord_outside _ _ _ _ (by omega), rd_writeWord_outside _ _ _ _ (by omega)]

theorem readWord_congr (m1 m2 : Mem) (a b : Nat)
    (h0 : rd m1 a = rd m2 b) (h1 : rd m1 (a + 1) = rd m2 (b + 1))
    (h2 : rd m1 (a + 2) = rd m2 (b + 2)) (h3 : rd m1 (a + 3) = rd m2 (b + 3)) :
    readWord m1 a = readWord m2 b := by
  unfold readWord
  rw [h0, h1, h2, h3]

/-!
Per-pixel actions of the 4-byte in-place normalization kernels, as functions
on the 32-bit pixel word.  On a little-endian host the C byte accesses
pix[0], pix[1], pix[2] are the fields w % 256, w / 256 % 256, w / 65536 % 256
of the word, and the C shift-and-mask expressions (color >> k) & 0xFF are
w / 2^k % 256; the divisors below are those powers of two written out.
-/

/-- Body of cairo_rgb24_from_xrgb32_le: pix[2] << 16 | pix[1] << 8 | pix[0]. -/
def xrgb32Pix (w : Nat) : Nat :=
  (w / 65536 % 256) * 65536 + (w / 256 % 256) * 256 + w % 256

/-- Body of cairo_rgb24_from_xbgr32_le: pix[0] << 16 | pix[1] << 8 | pix[2]. -/
def xbgr32Pix (w : Nat) : Nat :=
  (w % 256) * 65536 + (w / 256 % 256) * 256 + w / 65536 % 256

/-- Body of cairo_rgb24_from_xrgb2101010_le:
shifts 22, 12, 2 of the little-endian word, each masked to 8 bits. -/
def xrgb2101010Pix (w : Nat) : Nat :=
  (w / 4194304 % 256) * 65536 + (w / 4096 % 256) * 256 + w / 4 % 256

/-- Body of cairo_rgb24_from_xbgr2101010_le:
shifts 2, 12, 22 of the little-endian word, each masked to 8 bits. -/
def xbgr2101010Pix (w : Nat) : Nat :=
  (w / 4 % 256) * 65536 + (w / 4096 % 256) * 256 + w / 4194304 % 256

/-- Body of cairo_rgb24_from_rgbx1010102_le:
shifts 24, 14, 4 of the little-endian word, each masked to 8 bits. -/
def rgbx1010102Pix (w : Nat) : Nat :=
  (w / 16777216 % 256) * 65536 + (w / 16384 % 256) * 256 + w / 16 % 256

/-- Body of cairo_rgb24_from_bgrx1010102_le:
shifts 4, 14, 24 of the little-endian word, each masked to 8 bits. -/
def bgrx1010102Pix (w : Nat) : Nat :=
  (w / 16 % 256) * 65536 + (w / 16384 % 256) * 256 + w / 16777216 % 256

/-- Body of cairo_rgb24_swap_rb: pix[0] << 16 | pix[1] << 8 | pix[2]. -/
def swapRbPix (w : Nat) : Nat :=
  (w % 256) * 65536 + (w / 256 % 256) * 256 + w / 65536 % 256

/-!
The in-place kernel loop shared by all 4-byte-per-pixel kernels: for each
row y (top to bottom) and each column x (left to right), replace the 32-bit
word at buf + y * stride + x * 4 by f applied to it.
-/

/-- Inner column loop of a 4-byte in-place kernel over one row starting at
byte offset rb: processes cells x = 0 .. n-1 in increasing order. -/
def pixRow (f : Nat → Nat) (rb : Nat) (m : Mem) : Nat → Mem
  | 0 => m
  | n + 1 =>
    writeWord (pixRow f rb m n) (rb + 4 * n)
      (f (readWord (pixRow f rb m n) (rb + 4 * n)))

/-- Outer row loop of a 4-byte in-place kernel: processes rows
y = 0 .. n-1 in increasing order, row y starting at byte offset y * s. -/
def pixRows (f : Nat → Nat) (s w : Nat) (m : Mem) : Nat → Mem
  | 0 => m
  | n + 1 => pixRow f (n * s) (pixRows f s w m n) w

/-- A whole 4-byte in-place kernel with per-pixel word action f,
exactly the double loop shared by the cairo_rgb24_from_* 32-bit kernels
and cairo_rgb24_swap_rb. -/
def pixKernel (f : Nat → Nat) (m : Mem) (w h s : Nat) : Mem := pixRows f s w m h

theorem pixRow_rd_outside (f : Nat → Nat) (rb : Nat) (m : Mem) (n x : Nat)
    (h : x < rb ∨ rb + 4 * n ≤ x) : rd (pixRow f rb m n) x = rd m x := by
  induction n with
  | zero => rfl
  | succ k ih =>
    show rd (writeWord _ _ _) x = rd m x
    rw [rd_writeWord_outside _ _ _ _ (by omega), ih (by omega)]

theorem pixRow_readWord_outside (f : Nat → Nat) (rb : Nat) (m : Mem) (n x : Nat)
    (h : x + 4 ≤ rb ∨ rb + 4 * n ≤ x) :
    readWord (pixRow f rb m n) x = readWord m x := by
  apply readWord_congr <;> rw [pixRow_rd_outside _ _ _ _ _ (by omega)]

theorem pixRow_cell (f : Nat → Nat) (rb : Nat) (m : Mem) (n x : Nat) (hx : x < n) :
    readWord (pixRow f rb m n) (rb + 4 * x)
      = f (readWord m (rb + 4 * x)) % 4294967296 := by
  induction n with
  | zero => omega
  | succ k ih =>
    show readWord (writeWord _ _ _) _ = _
    rcases Nat.lt_or_ge x k with hlt | hge
    · rw [readWord_writeWord_disjoint _ _ _ _ (by omega), ih hlt]
    · have hxk : x = k := by omega
      subst hxk
      rw [readWord_writeWord_self, pixRow_readWord_outside _ _ _ _ _ (by omega)]

theorem pixRows_rd_outside (f : Nat → Nat) (s w : Nat) (m : Mem) (n x : Nat)
    (hs : 4 * w ≤ s) (h : n * s ≤ x) : rd (pixRows f s w m n) x = rd m x := by
  induction n with
  | zero => rfl
  | succ k ih =>
    show rd (pixRow _ _ _ _) x = rd m x
    rw [pixRow_rd_outside _ _ _ _ _ (by
        right
        have : k * s + s ≤ (k + 1) * s := by ring_nf; omega
        omega),
      ih (by
        have : k * s ≤ (k + 1) * s := by
          apply Nat.mul_le_mul_right
          omega
        omega)]

theorem pixRows_cell (f : Nat → Nat) (s w : Nat) (m : Mem) (n x y : Nat)
    (hs : 4 * w ≤ s) (hx : x < w) (hy : y < n) :
    readWord (pixRows f s w m n) (y * s + 4 * x)
      = f (readWord m (y * s + 4 * x)) % 4294967296 := by
  induction n with
  | zero => omega
  | succ k ih =>
    show readWord (pixRow _ _ _ _) _ = _
    rcases Nat.lt_or_ge y k with hlt | hge
    · rw [pixRow_readWord_outside _ _ _ _ _ (by
          left
          have h1 : (y + 1) * s ≤ k * s := Nat.mul_le_mul_right _ (by omega)
          have h2 : y * s + s = (y + 1) * s := by ring
          omega),
        ih hlt]
    · have hyk : y = k := by omega
      subst hyk
      rw [pixRow_cell _ _ _ _ _ hx]
      congr 2
      apply readWord_congr <;>
        rw [pixRows_rd_outside _ _ _ _ _ _ hs (by omega)]

theorem pixKernel_cell (f : Nat → Nat) (m : Mem) (w h s x y : Nat)
    (hs : 4 * w ≤ s) (hx : x < w) (hy : y < h) :
    readWord (pixKernel f m w h s) (y * s + 4 * x)
      = f (readWord m (y * s + 4 * x)) % 4294967296 :=
  pixRows_cell f s w m h x y hs hx hy

/-!
cairo_rgb24_from_bgr888_le: the in-place 3-byte-to-4-byte widening kernel.
Within each row the columns are processed from back to front, reading the
3-byte source cell at rb + 3 * x and writing the 4-byte destination cell at
rb + 4 * x with word srcpix[0] << 16 | srcpix[1] << 8 | srcpix[2].
-/

/-- Inner column loop of cairo_rgb24_from_bgr888_le over one row starting at
byte offset rb: processes cells x = n-1 down to 0 (back to front). -/
def bgr888Row (rb : Nat) (m : Mem) : Nat → Mem
  | 0 => m
  | n + 1 =>
    bgr888Row rb
      (writeWord m (rb + 4 * n)
        (rd m (rb + 3 * n) * 65536 + rd m (rb + 3 * n + 1) * 256 + rd m (rb + 3 * n + 2)))
      n

/-- Outer row loop of cairo_rgb24_from_bgr888_le: rows y = 0 .. n-1 in
increasing order, row y starting at byte offset y * s. -/
def bgr888Rows (s w : Nat) (m : Mem) : Nat → Mem
  | 0 => m
  | n + 1 => bgr888Row (n * s) (bgr888Rows s w m n) w

/-- The whole cairo_rgb24_from_bgr888_le kernel. -/
def bgr888Kernel (m : Mem) (w h s : Nat) : Mem := bgr888Rows s w m h

theorem bgr888Row_rd_outside (rb : Nat) (m : Mem) (n x : Nat)
    (h : x < rb ∨ rb + 4 * n ≤ x) : rd (bgr888Row rb m n) x = rd m x := by
  induction n generalizing m with
  | zero => rfl
  | succ k ih =>
    show rd (bgr888Row rb (writeWord m _ _) k) x = rd m x
    rw [ih _ (by omega), rd_writeWord_outside _ _ _ _ (by omega)]

theorem bgr888Row_readWord_ge (rb : Nat) (m : Mem) (n x : Nat) (h : rb + 4 * n ≤ x) :
    readWord (bgr888Row rb m n) x = readWord m x := by
  apply readWord_congr <;> rw [bgr888Row_rd_outside _ _ _ _ (by omega)]

theorem bgr888Row_cell (rb : Nat) (m : Mem) (n x : Nat) (hx : x < n) :
    readWord (bgr888Row rb m n) (rb + 4 * x)
      = rd m (rb + 3 * x) * 65536 + rd m (rb + 3 * x + 1) * 256 + rd m (rb + 3 * x + 2) := by
  induction n generalizing m with
  | zero => omega
  | succ k ih =>
    show readWord (bgr888Row rb (writeWord m (rb + 4 * k) _) k) _ = _
    rcases Nat.lt_or_ge x k with hlt | hge
    · rw [ih _ hlt]
      rw [rd_writeWord_outside _ _ _ _ (by omega), rd_writeWord_outside _ _ _ _ (by omega),
        rd_writeWord_outside _ _ _ _ (by omega)]
    · have hxk : x = k := by omega
      subst hxk
      rw [bgr888Row_readWord_ge _ _ _ _ (by omega), readWord_writeWord_self]
      have b0 := rd_lt m (rb + 3 * x)
      have b1 := rd_lt m (rb + 3 * x + 1)
      have b2 := rd_lt m (rb + 3 * x + 2)
      omega

theorem bgr888Rows_rd_outside (s w : Nat) (m : Mem) (n x : Nat)
    (hs : 4 * w ≤ s) (h : n * s ≤ x) : rd (bgr888Rows s w m n) x = rd m x := by
  induction n with
  | zero => rfl
  | succ k ih =>
    show rd (bgr888Row (k * s) _ w) x = rd m x
    rw [bgr888Row_rd_outside _ _ _ _ (by
        right
        have : k * s + s ≤ (k + 1) * s := by ring_nf; omega
        omega),
      ih (by
        have : k * s ≤ (k + 1) * s := Nat.mul_le_mul_right _ (by omega)
        omega)]

theorem bgr888Rows_cell (s w : Nat) (m : Mem) (n x y : Nat)
    (hs : 4 * w ≤ s) (hx : x < w) (hy : y < n) :
    readWord (bgr888Rows s w m n) (y * s + 4 * x)
      = rd m (y * s + 3 * x) * 65536 + rd m (y * s + 3 * x + 1) * 256
          + rd m (y * s + 3 * x + 2) := by
  induction n with
  | zero => omega
  | succ k ih =>
    show readWord (bgr888Row (k * s) _ w) _ = _
    rcases Nat.lt_or_ge y k with hlt | hge
    · have hcell : readWord (bgr888Row (k * s) (bgr888Rows s w m k) w) (y * s + 4 * x)
          = readWord (bgr888Rows s w m k) (y * s + 4 * x) := by
        apply readWord_congr <;>
          rw [bgr888Row_rd_outside _ _ _ _ (by
            left
            have h1 : (y + 1) * s ≤ k * s := Nat.mul_le_mul_right _ (by omega)
            have h2 : y * s + s = (y + 1) * s := by ring
            omega)]
      rw [hcell, ih hlt]
    · have hyk : y = k := by omega
      subst hyk
      rw [bgr888Row_cell _ _ _ _ hx]
      rw [bgr888Rows_rd_outside _ _ _ _ _ hs (by omega),
        bgr888Rows_rd_outside _ _ _ _ _ hs (by omega),
        bgr888Rows_rd_outside _ _ _ _ _ hs (by omega)]

/-!
The transform-and-copy engine of load_background_from_buffer.  The eight
wl_output_transform cases either run a per-pixel double loop copying one
32-bit cell per destination pixel (with the source coordinates given by
per-case formulas of destx and desty) or, for the normal and flipped-180
cases, copy whole rows with memcpy.
-/

/-- The eight wl_output_transform values. -/
inductive WlTransform
  | normal
  | rot90
  | rot180
  | rot270
  | flipped
  | flipped90
  | flipped180
  | flipped270
  deriving DecidableEq

/-- The transforms for which load_background_from_buffer creates the
destination surface with width and height swapped. -/
def rotatedDims : WlTransform → Bool
  | .rot90 | .rot270 | .flipped90 | .flipped270 => true
  | _ => false

/-- Destination width and height chosen by load_background_from_buffer:
swapped for the four 90-degree-family transforms. -/
def transformDims (t : WlTransform) (w h : Nat) : Nat × Nat :=
  if rotatedDims t then (h, w) else (w, h)

/-- Inner destx loop of a per-pixel transform case: writes the 32-bit cell
at destbuf + desty * ds + 4 * destx from the source cell at
srcbuf + sy destx desty * ss + 4 * sx destx desty, for destx = 0 .. n-1. -/
def copyCells (sx sy : Nat → Nat → Nat) (src : Mem) (ss ds dy : Nat) (dest : Mem) :
    Nat → Mem
  | 0 => dest
  | n + 1 =>
    writeWord (copyCells sx sy src ss ds dy dest n) (dy * ds + 4 * n)
      (readWord src (sy n dy * ss + 4 * sx n dy))

/-- Outer desty loop of a per-pixel transform case, rows 0 .. n-1. -/
def copyRows (sx sy : Nat → Nat → Nat) (src : Mem) (ss ds dw : Nat) (dest : Mem) :
    Nat → Mem
  | 0 => dest
  | n + 1 => copyCells sx sy src ss ds n (copyRows sx sy src ss ds dw dest n) dw

/-- A whole per-pixel transform case with source-coordinate maps sx and sy
(functions of destx and desty), exactly the double loop of the
per-pixel cases of load_background_from_buffer. -/
def transformLoop (sx sy : Nat → Nat → Nat) (src : Mem) (ss ds dw : Nat) (dest : Mem)
    (dh : Nat) : Mem :=
  copyRows sx sy src ss ds dw dest dh

/-- memcpy(dest + da, src + sa, n) on byte memories. -/
def copyBytes (src : Mem) (sa : Nat) (dest : Mem) (da : Nat) : Nat → Mem
  | 0 => dest
  | n + 1 => wr (copyBytes src sa dest da n) (da + n) (rd src (sa + n))

/-- Row loop of the WL_OUTPUT_TRANSFORM_NORMAL slow path: row y of the
destination is memcpy'd from row y of the source, minstride bytes. -/
def copyRowsNormal (src : Mem) (ss ds ms : Nat) (dest : Mem) : Nat → Mem
  | 0 => dest
  | n + 1 => copyBytes src (n * ss) (copyRowsNormal src ss ds ms dest n) (n * ds) ms

/-- Row loop of WL_OUTPUT_TRANSFORM_FLIPPED_180: row desty of the
destination is memcpy'd from source row dh - desty - 1, minstride bytes. -/
def copyRowsFlipped180 (src : Mem) (ss ds ms dh : Nat) (dest : Mem) : Nat → Mem
  | 0 => dest
  | n + 1 =>
    copyBytes src ((dh - n - 1) * ss) (copyRowsFlipped180 src ss ds ms dh dest n)
      (n * ds) ms

/-- The transform switch of load_background_from_buffer: given the source
buffer with logical width w, height h and stride ss, fills the freshly
created destination buffer of stride ds (with width and height possibly
swapped) and returns it.  Each case transcribes the corresponding case of
the C switch, including the memcpy fast paths of the normal and
flipped-180 cases. -/
def applyTransform (t : WlTransform) (src : Mem) (w h ss : Nat) (dest : Mem)
    (ds : Nat) : Mem :=
  let dw := (transformDims t w h).1
  let dh := (transformDims t w h).2
  let ms := min ss ds
  match t with
  | .normal =>
    if ss = ds then copyBytes src 0 dest 0 (dh * ds)
    else copyRowsNormal src ss ds ms dest dh
  | .rot90 =>
    transformLoop (fun _ dy => dy) (fun dx _ => dw - dx - 1) src ss ds dw dest dh
  | .rot180 =>
    transformLoop (fun dx _ => dw - dx - 1) (fun _ dy => dh - dy - 1) src ss ds dw dest dh
  | .rot270 =>
    transformLoop (fun _ dy => dh - dy - 1) (fun dx _ => dx) src ss ds dw dest dh
  | .flipped =>
    transformLoop (fun dx _ => dw - dx - 1) (fun _ dy => dy) src ss ds dw dest dh
  | .flipped90 =>
    transformLoop (fun _ dy => dy) (fun dx _ => dx) src ss ds dw dest dh
  | .flipped180 => copyRowsFlipped180 src ss ds ms dh dest dh
  | .flipped270 =>
    transformLoop (fun _ dy => dh - dy - 1) (fun dx _ => dw - dx - 1) src ss ds dw dest dh

theorem copyCells_readWord_outside (sx sy : Nat → Nat → Nat) (src : Mem)
    (ss ds dy : Nat) (dest : Mem) (n b : Nat) (h : b + 4 ≤ dy * ds) :
    readWord (copyCells sx sy src ss ds dy dest n) b = readWord dest b := by
  induction n with
  | zero => rfl
  | succ k ih =>
    show readWord (writeWord _ _ _) b = _
    rw [readWord_writeWord_disjoint _ _ _ _ (by omega), ih]

theorem copyCells_cell (sx sy : Nat → Nat → Nat) (src : Mem) (ss ds dy : Nat)
    (dest : Mem) (n dx : Nat) (hx : dx < n) :
    readWord (copyCells sx sy src ss ds dy dest n) (dy * ds + 4 * dx)
      = readWord src (sy dx dy * ss + 4 * sx dx dy) := by
  induction n with
  | zero => omega
  | succ k ih =>
    show readWord (writeWord _ _ _) _ = _
    rcases Nat.lt_or_ge dx k with hlt | hge
    · rw [readWord_writeWord_disjoint _ _ _ _ (by omega), ih hlt]
    · have hxk : dx = k := by omega
      subst hxk
      rw [readWord_writeWord_self, Nat.mod_eq_of_lt (readWord_lt _ _)]

theorem copyRows_cell (sx sy : Nat → Nat → Nat) (src : Mem) (ss ds dw : Nat)
    (dest : Mem) (n dx dy : Nat) (hds : 4 * dw ≤ ds) (hx : dx < dw) (hy : dy < n) :
    readWord (copyRows sx sy src ss ds dw dest n) (dy * ds + 4 * dx)
      = readWord src (sy dx dy * ss + 4 * sx dx dy) := by
  induction n with
  | zero => omega
  | succ k ih =>
    show readWord (copyCells _ _ _ _ _ k _ dw) _ = _
    rcases Nat.lt_or_ge dy k with hlt | hge
    · rw [copyCells_readWord_outside _ _ _ _ _ _ _ _ _ (by
          have h1 : (dy + 1) * ds ≤ k * ds := Nat.mul_le_mul_right _ (by omega)
          have h2 : dy * ds + ds = (dy + 1) * ds := by ring
          omega),
        ih hlt]
    · have hyk : dy = k := by omega
      subst hyk
      exact copyCells_cell _ _ _ _ _ _ _ _ _ hx

theorem copyBytes_rd_in (src : Mem) (sa : Nat) (dest : Mem) (da : Nat) (n i : Nat)
    (hi : i < n) : rd (copyBytes src sa dest da n) (da + i) = rd src (sa + i) := by
  induction n with
  | zero => omega
  | succ k ih =>
    show rd (wr _ _ _) _ = _
    rcases Nat.lt_or_ge i k with hlt | hge
    · rw [rd_wr_ne _ _ _ _ (by omega), ih hlt]
    · have hik : i = k := by omega
      subst hik
      rw [rd_wr_self, Nat.mod_eq_of_lt (rd_lt _ _)]

theorem copyBytes_rd_outside (src : Mem) (sa : Nat) (dest : Mem) (da : Nat) (n x : Nat)
    (h : x < da ∨ da + n ≤ x) : rd (copyBytes src sa dest da n) x = rd dest x := by
  induction n with
  | zero => rfl
  | succ k ih =>
    show rd (wr _ _ _) _ = _
    rw [rd_wr_ne _ _ _ _ (by omega), ih (by omega)]

theorem copyRowsNormal_cell (src : Mem) (ss ds ms : Nat) (dest : Mem)
    (n dx dy : Nat) (hss : 4 * dx + 4 ≤ ms) (hds : ms ≤ ds) (hy : dy < n) :
    readWord (copyRowsNormal src ss ds ms dest n) (dy * ds + 4 * dx)
      = readWord src (dy * ss + 4 * dx) := by
  induction n with
  | zero => omega
  | succ k ih =>
    show readWord (copyBytes src (k * ss) _ (k * ds) ms) _ = _
    rcases Nat.lt_or_ge dy k with hlt | hge
    · have hout : ∀ j, j < 4 →
          rd (copyBytes src (k * ss) (copyRowsNormal src ss ds ms dest k) (k * ds) ms)
              (dy * ds + 4 * dx + j)
            = rd (copyRowsNormal src ss ds ms dest k) (dy * ds + 4 * dx + j) := by
        intro j hj
        apply copyBytes_rd_outside
        left
        have h1 : (dy + 1) * ds ≤ k * ds := Nat.mul_le_mul_right _ (by omega)
        have h2 : dy * ds + ds = (dy + 1) * ds := by ring
        omega
      rw [readWord_congr _ (copyRowsNormal src ss ds ms dest k) (dy * ds + 4 * dx)
          (dy * ds + 4 * dx) (hout 0 (by omega)) (hout 1 (by omega)) (hout 2 (by omega))
          (hout 3 (by omega)),
        ih hlt]
    · have hyk : dy = k := by omega
      subst hyk
      have hin : ∀ j, j < 4 →
          rd (copyBytes src (dy * ss) (copyRowsNormal src ss ds ms dest dy) (dy * ds) ms)
              (dy * ds + 4 * dx + j)
            = rd src (dy * ss + 4 * dx + j) := by
        intro j hj
        have e1 : dy * ds + 4 * dx + j = dy * ds + (4 * dx + j) := by omega
        have e2 : dy * ss + 4 * dx + j = dy * ss + (4 * dx + j) := by omega
        rw [e1, e2]
        exact copyBytes_rd_in _ _ _ _ _ _ (by omega)
      exact readWord_congr _ _ _ _ (hin 0 (by omega)) (hin 1 (by omega))
        (hin 2 (by omega)) (hin 3 (by omega))

theorem copyRowsFlipped180_cell (src : Mem) (ss ds ms dh : Nat) (dest : Mem)
    (n dx dy : Nat) (hss : 4 * dx + 4 ≤ ms) (hds : ms ≤ ds) (hy : dy < n) :
    readWord (copyRowsFlipped180 src ss ds ms dh dest n) (dy * ds + 4 * dx)
      = readWord src ((dh - dy - 1) * ss + 4 * dx) := by
  induction n with
  | zero => omega
  | succ k ih =>
    show readWord (copyBytes src ((dh - k - 1) * ss) _ (k * ds) ms) _ = _
    rcases Nat.lt_or_ge dy k with hlt | hge
    · have hout : ∀ j, j < 4 →
          rd (copyBytes src ((dh - k - 1) * ss)
                (copyRowsFlipped180 src ss ds ms dh dest k) (k * ds) ms)
              (dy * ds + 4 * dx + j)
            = rd (copyRowsFlipped180 src ss ds ms dh dest k) (dy * ds + 4 * dx + j) := by
        intro j hj
        apply copyBytes_rd_outside
        left
        have h1 : (dy + 1) * ds ≤ k * ds := Nat.mul_le_mul_right _ (by omega)
        have h2 : dy * ds + ds = (dy + 1) * ds := by ring
        omega
      rw [readWord_congr _ (copyRowsFlipped180 src ss ds ms dh dest k)
          (dy * ds + 4 * dx) (dy * ds + 4 * dx) (hout 0 (by omega)) (hout 1 (by omega))
          (hout 2 (by omega)) (hout 3 (by omega)),
        ih hlt]
    · have hyk : dy = k := by omega
      subst hyk
      have hin : ∀ j, j < 4 →
          rd (copyBytes src ((dh - dy - 1) * ss)
                (copyRowsFlipped180 src ss ds ms dh dest dy) (dy * ds) ms)
              (dy * ds + 4 * dx + j)
            = rd src ((dh - dy - 1) * ss + 4 * dx + j) := by
        intro j hj
        have e1 : dy * ds + 4 * dx + j = dy * ds + (4 * dx + j) := by omega
        have e2 : (dh - dy - 1) * ss + 4 * dx + j = (dh - dy - 1) * ss + (4 * dx + j) := by
          omega
        rw [e1, e2]
        exact copyBytes_rd_in _ _ _ _ _ _ (by omega)
      exact readWord_congr _ _ _ _ (hin 0 (by omega)) (hin 1 (by omega))
        (hin 2 (by omega)) (hin 3 (by omega))

/-- Source x coordinate read by the code for destination pixel (dx, dy),
by transform, as implemented in the switch of load_background_from_buffer
(dw and dh are the destination width and height). -/
def srcMapX : WlTransform → Nat → Nat → Nat → Nat → Nat
  | .normal, _, _, dx, _ => dx
  | .rot90, _, _, _, dy => dy
  | .rot180, dw, _, dx, _ => dw - dx - 1
  | .rot270, _, dh, _, dy => dh - dy - 1
  | .flipped, dw, _, dx, _ => dw - dx - 1
  | .flipped90, _, _, _, dy => dy
  | .flipped180, _, _, dx, _ => dx
  | .flipped270, _, dh, _, dy => dh - dy - 1

/-- Source y coordinate read by the code for destination pixel (dx, dy),
by transform, as implemented in the switch of load_background_from_buffer. -/
def srcMapY : WlTransform → Nat → Nat → Nat → Nat → Nat
  | .normal, _, _, _, dy => dy
  | .rot90, dw, _, dx, _ => dw - dx - 1
  | .rot180, _, dh, _, dy => dh - dy - 1
  | .rot270, _, _, dx, _ => dx
  | .flipped, _, _, _, dy => dy
  | .flipped90, _, _, dx, _ => dx
  | .flipped180, _, dh, _, dy => dh - dy - 1
  | .flipped270, dw, _, dx, _ => dw - dx - 1

/-- Master per-cell description of the transform stage: every destination
cell (dx, dy) of applyTransform equals the source cell at the coordinates
given by srcMapX and srcMapY, provided both strides cover a full row of
4-byte cells. -/
theorem applyTransform_cell (t : WlTransform) (src dest : Mem) (w h ss ds : Nat)
    (hss : 4 * w ≤ ss) (hds : 4 * (transformDims t w h).1 ≤ ds) (dx dy : Nat)
    (hx : dx < (transformDims t w h).1) (hy : dy < (transformDims t w h).2) :
    readWord (applyTransform t src w h ss dest ds) (dy * ds + 4 * dx)
      = readWord src
          (srcMapY t (transformDims t w h).1 (transformDims t w h).2 dx dy * ss
            + 4 * srcMapX t (transformDims t w h).1 (transformDims t w h).2 dx dy) := by
  cases t with
  | normal =>
    simp only [transformDims, rotatedDims, if_neg Bool.false_ne_true] at hds hx hy ⊢
    simp only [applyTransform, transformDims, rotatedDims, srcMapX, srcMapY]
    by_cases hsd : ss = ds
    · rw [if_pos hsd]
      subst hsd
      have hin : ∀ j, j < 4 →
          rd (copyBytes src 0 dest 0 (h * ss)) (dy * ss + 4 * dx + j)
            = rd src (dy * ss + 4 * dx + j) := by
        intro j hj
        have e : dy * ss + 4 * dx + j = 0 + (dy * ss + 4 * dx + j) := by omega
        rw [e]
        apply copyBytes_rd_in
        have h1 : (dy + 1) * ss ≤ h * ss := Nat.mul_le_mul_right _ (by omega)
        have h2 : dy * ss + ss = (dy + 1) * ss := by ring
        omega
      exact readWord_congr _ _ _ _ (hin 0 (by omega)) (hin 1 (by omega))
        (hin 2 (by omega)) (hin 3 (by omega))
    · rw [if_neg hsd]
      exact copyRowsNormal_cell _ _ _ _ _ _ _ _ (by omega) (by omega) hy
  | flipped180 =>
    simp only [transformDims, rotatedDims, if_neg Bool.false_ne_true] at hds hx hy ⊢
    simp only [applyTransform, transformDims, rotatedDims, srcMapX, srcMapY]
    exact copyRowsFlipped180_cell _ _ _ _ _ _ _ _ _ (by omega) (by omega) hy
  | rot90 =>
    simp only [transformDims, rotatedDims, if_pos rfl] at hds hx hy ⊢
    simp only [applyTransform, transformDims, rotatedDims, transformLoop, srcMapX, srcMapY]
    exact copyRows_cell _ _ _ _ _ _ _ _ _ _ hds hx hy
  | rot180 =>
    simp only [transformDims, rotatedDims, if_neg Bool.false_ne_true] at hds hx hy ⊢
    simp only [applyTransform, transformDims, rotatedDims, transformLoop, srcMapX, srcMapY]
    exact copyRows_cell _ _ _ _ _ _ _ _ _ _ hds hx hy
  | rot270 =>
    simp only [transformDims, rotatedDims, if_pos rfl] at hds hx hy ⊢
    simp only [applyTransform, transformDims, rotatedDims, transformLoop, srcMapX, srcMapY]
    exact copyRows_cell _ _ _ _ _ _ _ _ _ _ hds hx hy
  | flipped =>
    simp only [transformDims, rotatedDims, if_neg Bool.false_ne_true] at hds hx hy ⊢
    simp only [applyTransform, transformDims, rotatedDims, transformLoop, srcMapX, srcMapY]
    exact copyRows_cell _ _ _ _ _ _ _ _ _ _ hds hx hy
  | flipped90 =>
    simp only [transformDims, rotatedDims, if_pos rfl] at hds hx hy ⊢
    simp only [applyTransform, transformDims, rotatedDims, transformLoop, srcMapX, srcMapY]
    exact copyRows_cell _ _ _ _ _ _ _ _ _ _ hds hx hy
  | flipped270 =>
    simp only [transformDims, rotatedDims, if_pos rfl] at hds hx hy ⊢
    simp only [applyTransform, transformDims, rotatedDims, transformLoop, srcMapX, srcMapY]
    exact copyRows_cell _ _ _ _ _ _ _ _ _ _ hds hx hy

/-!
The format switch of load_background_from_buffer, and the whole pipeline.
-/

/-- The wl_shm formats handled by the format switch; unknown stands for any
format value not named in the switch (the logged-and-assume-XRGB32 path). -/
inductive WlShmFormat
  | xrgb8888
  | argb8888
  | xbgr8888
  | abgr8888
  | xrgb2101010
  | argb2101010
  | xbgr2101010
  | abgr2101010
  | rgbx1010102
  | rgba1010102
  | bgrx1010102
  | bgra1010102
  | bgr888
  | rgb888
  | unknown
  deriving DecidableEq

/-- The format switch of load_background_from_buffer, applied to the buffer
after the transform stage: dispatches to the matching in-place kernel.
The le flag is the runtime is_little_endian probe: for XRGB8888, ARGB8888
and unknown formats the xrgb32 kernel runs only on a big-endian host. -/
def normalizeFormat (fmt : WlShmFormat) (le : Bool) (m : Mem) (w h s : Nat) : Mem :=
  match fmt with
  | .xbgr8888 | .abgr8888 => pixKernel xbgr32Pix m w h s
  | .xrgb2101010 | .argb2101010 => pixKernel xrgb2101010Pix m w h s
  | .xbgr2101010 | .abgr2101010 => pixKernel xbgr2101010Pix m w h s
  | .rgbx1010102 | .rgba1010102 => pixKernel rgbx1010102Pix m w h s
  | .bgrx1010102 | .bgra1010102 => pixKernel bgrx1010102Pix m w h s
  | .bgr888 => bgr888Kernel m w h s
  | .rgb888 => pixKernel swapRbPix (bgr888Kernel m w h s) w h s
  | .xrgb8888 | .argb8888 | .unknown =>
    if le then m else pixKernel xrgb32Pix m w h s

/-- load_background_from_buffer: the transform stage fills the destination
buffer (dims possibly swapped, stride ds), then the format switch
normalizes it in place using the destination dimensions and stride. -/
def load_background_from_buffer (fmt : WlShmFormat) (le : Bool) (src : Mem)
    (w h ss : Nat) (dest : Mem) (ds : Nat) (t : WlTransform) : Mem :=
  normalizeFormat fmt le (applyTransform t src w h ss dest ds)
    (transformDims t w h).1 (transformDims t w h).2 ds

/-!
parse_background_mode: exact string matching with an invalid sentinel.
-/

/-- The enum background_mode. -/
inductive BackgroundMode
  | stretch
  | fill
  | fit
  | center
  | tile
  | solid_color
  | invalid
  deriving DecidableEq

/-- parse_background_mode: the strcmp chain of the C function.  The second
component records whether the error log line was emitted (it is, exactly
on the fall-through to BACKGROUND_MODE_INVALID). -/
def parse_background_mode (s : String) : BackgroundMode × Bool :=
  if s = "stretch" then (.stretch, false)
  else if s = "fill" then (.fill, false)
  else if s = "fit" then (.fit, false)
  else if s = "center" then (.center, false)
  else if s = "tile" then (.tile, false)
  else if s = "solid_color" then (.solid_color, false)
  else (.invalid, true)

/-!
Concrete buffers used by counterexamples and witnesses.
-/

/-- A 2-by-1 source buffer with stride 8: cell (0,0) holds word 1 and
cell (1,0) holds word 2. -/
def exSrc : Mem := fun a => if a = 0 then 1 else if a = 4 then 2 else 0

/-- An all-zero destination buffer. -/
def zeroMem : Mem := fun _ => 0

/-!
Claim theorems.
-/

/-- C1 counterexample: the claimed 90-degree map srcX = destHeight - destY - 1,
srcY = destWidth - destX - 1 is not what the code computes.  For the 2-by-1
source exSrc (transformed to a 1-by-2 destination), the destination cell
(0, 0) does not equal the source cell at the claimed coordinates
(srcX, srcY) = (2 - 0 - 1, 1 - 0 - 1) = (1, 0). -/
theorem rot90_claimed_map_counterexample :
    readWord (applyTransform WlTransform.rot90 exSrc 2 1 8 zeroMem 4) (0 * 4 + 4 * 0)
      ≠ readWord exSrc (0 * 8 + 4 * 1) := by
  decide

/-- C1 (amended): for the 90-degree transform the code reads srcX = destY
and srcY = destWidth - destX - 1; with a source of width w and height h the
destination is h wide and w high, so every destination cell (dx, dy) equals
the source cell at (srcX, srcY) = (dy, h - dx - 1). -/
theorem rot90_cell_map (src dest : Mem) (w h ss ds : Nat) (hds : 4 * h ≤ ds)
    (dx dy : Nat) (hx : dx < h) (hy : dy < w) :
    readWord (applyTransform WlTransform.rot90 src w h ss dest ds) (dy * ds + 4 * dx)
      = readWord src ((h - dx - 1) * ss + 4 * dy) := by
  simp only [applyTransform, transformDims, rotatedDims, transformLoop]
  exact copyRows_cell _ _ _ _ _ _ _ _ _ _ hds hx hy

/-- Witness for rot90_cell_map at a concrete input. -/
theorem rot90_cell_map_witness :
    4 * 1 ≤ 4
    ∧ readWord (applyTransform WlTransform.rot90 exSrc 2 1 8 zeroMem 4) (0 * 4 + 4 * 0)
        = readWord exSrc ((1 - 0 - 1) * 8 + 4 * 0) :=
  ⟨by decide, rot90_cell_map exSrc zeroMem 2 1 8 4 (by decide) 0 0 (by decide) (by decide)⟩

/-- C3 counterexample: the claimed 270-degree map srcX = destY, srcY = destX
is not what the code computes.  For the 2-by-1 source exSrc (transformed to
a 1-by-2 destination), the destination cell (0, 0) does not equal the
source cell at the claimed coordinates (srcX, srcY) = (0, 0). -/
theorem rot270_claimed_map_counterexample :
    readWord (applyTransform WlTransform.rot270 exSrc 2 1 8 zeroMem 4) (0 * 4 + 4 * 0)
      ≠ readWord exSrc (0 * 8 + 4 * 0) := by
  decide

/-- C3 (amended): for the 270-degree transform the code reads
srcX = destHeight - destY - 1 and srcY = destX; with a source of width w and
height h the destination is h wide and w high, so every destination cell
(dx, dy) equals the source cell at (srcX, srcY) = (w - dy - 1, dx). -/
theorem rot270_cell_map (src dest : Mem) (w h ss ds : Nat) (hds : 4 * h ≤ ds)
    (dx dy : Nat) (hx : dx < h) (hy : dy < w) :
    readWord (applyTransform WlTransform.rot270 src w h ss dest ds) (dy * ds + 4 * dx)
      = readWord src (dx * ss + 4 * (w - dy - 1)) := by
  simp only [applyTransform, transformDims, rotatedDims, transformLoop]
  exact copyRows_cell _ _ _ _ _ _ _ _ _ _ hds hx hy

/-- Witness for rot270_cell_map at a concrete input. -/
theorem rot270_cell_map_witness :
    4 * 1 ≤ 4
    ∧ readWord (applyTransform WlTransform.rot270 exSrc 2 1 8 zeroMem 4) (0 * 4 + 4 * 0)
        = readWord exSrc (0 * 8 + 4 * (2 - 0 - 1)) :=
  ⟨by decide, rot270_cell_map exSrc zeroMem 2 1 8 4 (by decide) 0 0 (by decide) (by decide)⟩

theorem xrgb32Pix_lt (w : Nat) : xrgb32Pix w < 16777216 := by
  unfold xrgb32Pix; omega

theorem xbgr32Pix_lt (w : Nat) : xbgr32Pix w < 16777216 := by
  unfold xbgr32Pix; omega

theorem xrgb2101010Pix_lt (w : Nat) : xrgb2101010Pix w < 16777216 := by
  unfold xrgb2101010Pix; omega

theorem xbgr2101010Pix_lt (w : Nat) : xbgr2101010Pix w < 16777216 := by
  unfold xbgr2101010Pix; omega

theorem rgbx1010102Pix_lt (w : Nat) : rgbx1010102Pix w < 16777216 := by
  unfold rgbx1010102Pix; omega

theorem bgrx1010102Pix_lt (w : Nat) : bgrx1010102Pix w < 16777216 := by
  unfold bgrx1010102Pix; omega

theorem swapRbPix_lt (w : Nat) : swapRbPix w < 16777216 := by
  unfold swapRbPix; omega

/-- C2: end to end, a 4-by-4 source in the packed 8-bit XBGR8888 format with
the 90-degree transform produces a 4-by-4 destination (square, so no
dimension swap is observable) whose pixel at destination (0, 0) is the
source pixel at source coordinate (0, 3), with its channel bytes reordered
to canonical order by the xbgr32 kernel. -/
theorem endtoend_4x4_rot90 (le : Bool) (src dest : Mem) (ss ds : Nat)
    (hss : 16 ≤ ss) (hds : 16 ≤ ds) :
    transformDims WlTransform.rot90 4 4 = (4, 4)
    ∧ readWord (load_background_from_buffer WlShmFormat.xbgr8888 le src 4 4 ss dest ds
          WlTransform.rot90) (0 * ds + 4 * 0)
        = xbgr32Pix (readWord src (3 * ss + 4 * 0)) := by
  refine ⟨rfl, ?_⟩
  show readWord
      (pixKernel xbgr32Pix (applyTransform WlTransform.rot90 src 4 4 ss dest ds) 4 4 ds)
      (0 * ds + 4 * 0) = _
  rw [pixKernel_cell xbgr32Pix _ 4 4 ds 0 0 (by omega) (by decide) (by decide)]
  rw [applyTransform_cell WlTransform.rot90 src dest 4 4 ss ds
      (by omega) (by change 4 * 4 ≤ ds; omega) 0 0
      (by change (0 : Nat) < 4; decide) (by change (0 : Nat) < 4; decide)]
  show xbgr32Pix (readWord src ((4 - 0 - 1) * ss + 4 * 0)) % 4294967296
      = xbgr32Pix (readWord src (3 * ss + 4 * 0))
  norm_num
  have hlt := xbgr32Pix_lt (readWord src (3 * ss))
  omega

/-- Witness for endtoend_4x4_rot90 at a concrete input. -/
theorem endtoend_4x4_rot90_witness :
    (16 ≤ 16 ∧ 16 ≤ 16)
    ∧ transformDims WlTransform.rot90 4 4 = (4, 4)
    ∧ readWord (load_background_from_buffer WlShmFormat.xbgr8888 true exSrc 4 4 16 zeroMem
          16 WlTransform.rot90) (0 * 16 + 4 * 0)
        = xbgr32Pix (readWord exSrc (3 * 16 + 4 * 0)) :=
  ⟨⟨by decide, by decide⟩,
    endtoend_4x4_rot90 true exSrc zeroMem 16 16 (by decide) (by decide)⟩

/-- C4: the in-place 3-byte-to-4-byte widening kernel
cairo_rgb24_from_bgr888_le never corrupts a not-yet-read 3-byte source
cell: after it completes, every destination 4-byte cell of every row is
built from exactly the 3 source bytes that originally belonged to that
pixel, srcpix[0] << 16 | srcpix[1] << 8 | srcpix[2]. -/
theorem bgr888_widening (m : Mem) (w h s : Nat) (hs : 4 * w ≤ s) (x y : Nat)
    (hx : x < w) (hy : y < h) :
    readWord (bgr888Kernel m w h s) (y * s + 4 * x)
      = rd m (y * s + 3 * x) * 65536 + rd m (y * s + 3 * x + 1) * 256
          + rd m (y * s + 3 * x + 2) :=
  bgr888Rows_cell s w m h x y hs hx hy

/-- A row of bytes holding pairwise distinct marker values. -/
def markerMem : Mem := fun a => a + 1

/-- Witness for bgr888_widening: a 2-pixel row of distinct markers, checked
at the second pixel. -/
theorem bgr888_widening_witness :
    4 * 2 ≤ 8
    ∧ readWord (bgr888Kernel markerMem 2 1 8) (0 * 8 + 4 * 1)
        = rd markerMem (0 * 8 + 3 * 1) * 65536 + rd markerMem (0 * 8 + 3 * 1 + 1) * 256
            + rd markerMem (0 * 8 + 3 * 1 + 2) :=
  ⟨by decide, bgr888_widening markerMem 2 1 8 (by decide) 1 0 (by decide) (by decide)⟩

theorem fieldHi (a b c : Nat) (ha : a < 256) (hb : b < 256) (hc : c < 256) :
    (a * 65536 + b * 256 + c) / 65536 % 256 = a := by omega

theorem fieldMid (a b c : Nat) (ha : a < 256) (hb : b < 256) (hc : c < 256) :
    (a * 65536 + b * 256 + c) / 256 % 256 = b := by omega

theorem fieldLo (a b c : Nat) (ha : a < 256) (hb : b < 256) (hc : c < 256) :
    (a * 65536 + b * 256 + c) % 256 = c := by omega

/-- C5: in all four 10-bit kernels, each canonical 8-bit output channel is
the 10-bit source channel with its two low bits dropped (truncation, never
rounding); hence 1023 canonicalizes to 255, 0 canonicalizes to 0, and every
output channel is below 256.  The 10-bit channels of the little-endian
word w sit at bit offsets 20 / 10 / 0 (xrgb2101010: X2-R10-G10-B10 and
xbgr2101010: X2-B10-G10-R10) and 22 / 12 / 2 (rgbx1010102: R10-G10-B10-X2
and bgrx1010102: B10-G10-R10-X2); the canonical output fields are
w / 65536 % 256 (red), w / 256 % 256 (green) and w % 256 (blue). -/
theorem tenbit_truncation (w : Nat) :
    ((w / 1048576 % 1024 = 1023 → xrgb2101010Pix w / 65536 % 256 = 255)
      ∧ (w / 1048576 % 1024 = 0 → xrgb2101010Pix w / 65536 % 256 = 0)
      ∧ xrgb2101010Pix w / 65536 % 256 = w / 1048576 % 1024 / 4
      ∧ xrgb2101010Pix w / 65536 % 256 < 256)
    ∧ ((w / 1024 % 1024 = 1023 → xrgb2101010Pix w / 256 % 256 = 255)
      ∧ (w / 1024 % 1024 = 0 → xrgb2101010Pix w / 256 % 256 = 0)
      ∧ xrgb2101010Pix w / 256 % 256 = w / 1024 % 1024 / 4
      ∧ xrgb2101010Pix w / 256 % 256 < 256)
    ∧ ((w % 1024 = 1023 → xrgb2101010Pix w % 256 = 255)
      ∧ (w % 1024 = 0 → xrgb2101010Pix w % 256 = 0)
      ∧ xrgb2101010Pix w % 256 = w % 1024 / 4
      ∧ xrgb2101010Pix w % 256 < 256)
    ∧ ((w % 1024 = 1023 → xbgr2101010Pix w / 65536 % 256 = 255)
      ∧ (w % 1024 = 0 → xbgr2101010Pix w / 65536 % 256 = 0)
      ∧ xbgr2101010Pix w / 65536 % 256 = w % 1024 / 4
      ∧ xbgr2101010Pix w / 65536 % 256 < 256)
    ∧ ((w / 1024 % 1024 = 1023 → xbgr2101010Pix w / 256 % 256 = 255)
      ∧ (w / 1024 % 1024 = 0 → xbgr2101010Pix w / 256 % 256 = 0)
      ∧ xbgr2101010Pix w / 256 % 256 = w / 1024 % 1024 / 4
      ∧ xbgr2101010Pix w / 256 % 256 < 256)
    ∧ ((w / 1048576 % 1024 = 1023 → xbgr2101010Pix w % 256 = 255)
      ∧ (w / 1048576 % 1024 = 0 → xbgr2101010Pix w % 256 = 0)
      ∧ xbgr2101010Pix w % 256 = w / 1048576 % 1024 / 4
      ∧ xbgr2101010Pix w % 256 < 256)
    ∧ ((w / 4194304 % 1024 = 1023 → rgbx1010102Pix w / 65536 % 256 = 255)
      ∧ (w / 4194304 % 1024 = 0 → rgbx1010102Pix w / 65536 % 256 = 0)
      ∧ rgbx1010102Pix w / 65536 % 256 = w / 4194304 % 1024 / 4
      ∧ rgbx1010102Pix w / 65536 % 256 < 256)
    ∧ ((w / 4096 % 1024 = 1023 → rgbx1010102Pix w / 256 % 256 = 255)
      ∧ (w / 4096 % 1024 = 0 → rgbx1010102Pix w / 256 % 256 = 0)
      ∧ rgbx1010102Pix w / 256 % 256 = w / 4096 % 1024 / 4
      ∧ rgbx1010102Pix w / 256 % 256 < 256)
    ∧ ((w / 4 % 1024 = 1023 → rgbx1010102Pix w % 256 = 255)
      ∧ (w / 4 % 1024 = 0 → rgbx1010102Pix w % 256 = 0)
      ∧ rgbx1010102Pix w % 256 = w / 4 % 1024 / 4
      ∧ rgbx1010102Pix w % 256 < 256)
    ∧ ((w / 4 % 1024 = 1023 → bgrx1010102Pix w / 65536 % 256 = 255)
      ∧ (w / 4 % 1024 = 0 → bgrx1010102Pix w / 65536 % 256 = 0)
      ∧ bgrx1010102Pix w / 65536 % 256 = w / 4 % 1024 / 4
      ∧ bgrx1010102Pix w / 65536 % 256 < 256)
    ∧ ((w / 4096 % 1024 = 1023 → bgrx1010102Pix w / 256 % 256 = 255)
      ∧ (w / 4096 % 1024 = 0 → bgrx1010102Pix w / 256 % 256 = 0)
      ∧ bgrx1010102Pix w / 256 % 256 = w / 4096 % 1024 / 4
      ∧ bgrx1010102Pix w / 256 % 256 < 256)
    ∧ ((w / 4194304 % 1024 = 1023 → bgrx1010102Pix w % 256 = 255)
      ∧ (w / 4194304 % 1024 = 0 → bgrx1010102Pix w % 256 = 0)
      ∧ bgrx1010102Pix w % 256 = w / 4194304 % 1024 / 4
      ∧ bgrx1010102Pix w % 256 < 256) := by
  have e1 : xrgb2101010Pix w / 65536 % 256 = w / 4194304 % 256 := by
    unfold xrgb2101010Pix
    exact fieldHi _ _ _ (by omega) (by omega) (by omega)
  have e2 : xrgb2101010Pix w / 256 % 256 = w / 4096 % 256 := by
    unfold xrgb2101010Pix
    exact fieldMid _ _ _ (by omega) (by omega) (by omega)
  have e3 : xrgb2101010Pix w % 256 = w / 4 % 256 := by
    unfold xrgb2101010Pix
    exact fieldLo _ _ _ (by omega) (by omega) (by omega)
  have e4 : xbgr2101010Pix w / 65536 % 256 = w / 4 % 256 := by
    unfold xbgr2101010Pix
    exact fieldHi _ _ _ (by omega) (by omega) (by omega)
  have e5 : xbgr2101010Pix w / 256 % 256 = w / 4096 % 256 := by
    unfold xbgr2101010Pix
    exact fieldMid _ _ _ (by omega) (by omega) (by omega)
  have e6 : xbgr2101010Pix w % 256 = w / 4194304 % 256 := by
    unfold xbgr2101010Pix
    exact fieldLo _ _ _ (by omega) (by omega) (by omega)
  have e7 : rgbx1010102Pix w / 65536 % 256 = w / 16777216 % 256 := by
    unfold rgbx1010102Pix
    exact fieldHi _ _ _ (by omega) (by omega) (by omega)
  have e8 : rgbx1010102Pix w / 256 % 256 = w / 16384 % 256 := by
    unfold rgbx1010102Pix
    exact fieldMid _ _ _ (by omega) (by omega) (by omega)
  have e9 : rgbx1010102Pix w % 256 = w / 16 % 256 := by
    unfold rgbx1010102Pix
    exact fieldLo _ _ _ (by omega) (by omega) (by omega)
  have e10 : bgrx1010102Pix w / 65536 % 256 = w / 16 % 256 := by
    unfold bgrx1010102Pix
    exact fieldHi _ _ _ (by omega) (by omega) (by omega)
  have e11 : bgrx1010102Pix w / 256 % 256 = w / 16384 % 256 := by
    unfold bgrx1010102Pix
    exact fieldMid _ _ _ (by omega) (by omega) (by omega)
  have e12 : bgrx1010102Pix w % 256 = w / 16777216 % 256 := by
    unfold bgrx1010102Pix
    exact fieldLo _ _ _ (by omega) (by omega) (by omega)
  simp only [e1, e2, e3, e4, e5, e6, e7, e8, e9, e10, e11, e12]
  clear e1 e2 e3 e4 e5 e6 e7 e8 e9 e10 e11 e12
  refine ⟨⟨?_, ?_, ?_, ?_⟩, ⟨?_, ?_, ?_, ?_⟩, ⟨?_, ?_, ?_, ?_⟩, ⟨?_, ?_, ?_, ?_⟩,
    ⟨?_, ?_, ?_, ?_⟩, ⟨?_, ?_, ?_, ?_⟩, ⟨?_, ?_, ?_, ?_⟩, ⟨?_, ?_, ?_, ?_⟩,
    ⟨?_, ?_, ?_, ?_⟩, ⟨?_, ?_, ?_, ?_⟩, ⟨?_, ?_, ?_, ?_⟩, ⟨?_, ?_, ?_, ?_⟩⟩
  all_goals intros
  all_goals omega

/-- Witness for tenbit_truncation: the xrgb2101010 red channel at its
maximum 10-bit value 1023 (word 1023 * 2^20) canonicalizes to 255. -/
theorem tenbit_truncation_witness :
    1072693248 / 1048576 % 1024 = 1023
    ∧ xrgb2101010Pix 1072693248 / 65536 % 256 = 255 :=
  ⟨by decide, (tenbit_truncation 1072693248).1.1 (by decide)⟩

/-- The inverse of each of the eight transforms, itself one of the eight:
the rotations 90 and 270 invert each other and the remaining six are
involutions. -/
def invTransform : WlTransform → WlTransform
  | .normal => .normal
  | .rot90 => .rot270
  | .rot180 => .rot180
  | .rot270 => .rot90
  | .flipped => .flipped
  | .flipped90 => .flipped90
  | .flipped180 => .flipped180
  | .flipped270 => .flipped270

/-- C6: applying any of the eight transforms and then its inverse
reproduces the source buffer cell for cell, and the dimension bookkeeping
swaps width and height and then swaps them back for the 90/270 family. -/
theorem transform_roundtrip (t : WlTransform) (src d1 d2 : Mem) (w h ss ds1 ds2 : Nat)
    (hss : 4 * w ≤ ss) (hds1 : 4 * (transformDims t w h).1 ≤ ds1)
    (hds2 : 4 * w ≤ ds2) (x y : Nat) (hx : x < w) (hy : y < h) :
    transformDims (invTransform t) (transformDims t w h).1 (transformDims t w h).2 = (w, h)
    ∧ readWord (applyTransform (invTransform t)
          (applyTransform t src w h ss d1 ds1)
          (transformDims t w h).1 (transformDims t w h).2 ds1 d2 ds2)
        (y * ds2 + 4 * x)
      = readWord src (y * ss + 4 * x) := by
  cases t with
  | normal =>
    refine ⟨rfl, ?_⟩
    show readWord (applyTransform WlTransform.normal
        (applyTransform WlTransform.normal src w h ss d1 ds1) w h ds1 d2 ds2)
        (y * ds2 + 4 * x) = readWord src (y * ss + 4 * x)
    rw [applyTransform_cell WlTransform.normal _ d2 w h ds1 ds2 hds1 hds2 x y hx hy]
    show readWord (applyTransform WlTransform.normal src w h ss d1 ds1)
        (y * ds1 + 4 * x) = readWord src (y * ss + 4 * x)
    rw [applyTransform_cell WlTransform.normal src d1 w h ss ds1 hss hds1 x y hx hy]
    rfl
  | rot90 =>
    refine ⟨rfl, ?_⟩
    show readWord (applyTransform WlTransform.rot270
        (applyTransform WlTransform.rot90 src w h ss d1 ds1) h w ds1 d2 ds2)
        (y * ds2 + 4 * x) = readWord src (y * ss + 4 * x)
    rw [applyTransform_cell WlTransform.rot270 _ d2 h w ds1 ds2 hds1 hds2 x y hx hy]
    show readWord (applyTransform WlTransform.rot90 src w h ss d1 ds1)
        (x * ds1 + 4 * (h - y - 1)) = readWord src (y * ss + 4 * x)
    rw [applyTransform_cell WlTransform.rot90 src d1 w h ss ds1 hss hds1 (h - y - 1) x
        (by change h - y - 1 < h; omega) (by change x < w; omega)]
    show readWord src ((h - (h - y - 1) - 1) * ss + 4 * x) = readWord src (y * ss + 4 * x)
    have e : h - (h - y - 1) - 1 = y := by omega
    rw [e]
  | rot180 =>
    refine ⟨rfl, ?_⟩
    show readWord (applyTransform WlTransform.rot180
        (applyTransform WlTransform.rot180 src w h ss d1 ds1) w h ds1 d2 ds2)
        (y * ds2 + 4 * x) = readWord src (y * ss + 4 * x)
    rw [applyTransform_cell WlTransform.rot180 _ d2 w h ds1 ds2 hds1 hds2 x y hx hy]
    show readWord (applyTransform WlTransform.rot180 src w h ss d1 ds1)
        ((h - y - 1) * ds1 + 4 * (w - x - 1)) = readWord src (y * ss + 4 * x)
    rw [applyTransform_cell WlTransform.rot180 src d1 w h ss ds1 hss hds1 (w - x - 1)
        (h - y - 1) (by change w - x - 1 < w; omega) (by change h - y - 1 < h; omega)]
    show readWord src ((h - (h - y - 1) - 1) * ss + 4 * (w - (w - x - 1) - 1))
        = readWord src (y * ss + 4 * x)
    have e1 : h - (h - y - 1) - 1 = y := by omega
    have e2 : w - (w - x - 1) - 1 = x := by omega
    rw [e1, e2]
  | rot270 =>
    refine ⟨rfl, ?_⟩
    show readWord (applyTransform WlTransform.rot90
        (applyTransform WlTransform.rot270 src w h ss d1 ds1) h w ds1 d2 ds2)
        (y * ds2 + 4 * x) = readWord src (y * ss + 4 * x)
    rw [applyTransform_cell WlTransform.rot90 _ d2 h w ds1 ds2 hds1 hds2 x y hx hy]
    show readWord (applyTransform WlTransform.rot270 src w h ss d1 ds1)
        ((w - x - 1) * ds1 + 4 * y) = readWord src (y * ss + 4 * x)
    rw [applyTransform_cell WlTransform.rot270 src d1 w h ss ds1 hss hds1 y (w - x - 1)
        (by change y < h; omega) (by change w - x - 1 < w; omega)]
    show readWord src (y * ss + 4 * (w - (w - x - 1) - 1)) = readWord src (y * ss + 4 * x)
    have e : w - (w - x - 1) - 1 = x := by omega
    rw [e]
  | flipped =>
    refine ⟨rfl, ?_⟩
    show readWord (applyTransform WlTransform.flipped
        (applyTransform WlTransform.flipped src w h ss d1 ds1) w h ds1 d2 ds2)
        (y * ds2 + 4 * x) = readWord src (y * ss + 4 * x)
    rw [applyTransform_cell WlTransform.flipped _ d2 w h ds1 ds2 hds1 hds2 x y hx hy]
    show readWord (applyTransform WlTransform.flipped src w h ss d1 ds1)
        (y * ds1 + 4 * (w - x - 1)) = readWord src (y * ss + 4 * x)
    rw [applyTransform_cell WlTransform.flipped src d1 w h ss ds1 hss hds1 (w - x - 1) y
        (by change w - x - 1 < w; omega) (by change y < h; omega)]
    show readWord src (y * ss + 4 * (w - (w - x - 1) - 1)) = readWord src (y * ss + 4 * x)
    have e : w - (w - x - 1) - 1 = x := by omega
    rw [e]
  | flipped90 =>
    refine ⟨rfl, ?_⟩
    show readWord (applyTransform WlTransform.flipped90
        (applyTransform WlTransform.flipped90 src w h ss d1 ds1) h w ds1 d2 ds2)
        (y * ds2 + 4 * x) = readWord src (y * ss + 4 * x)
    rw [applyTransform_cell WlTransform.flipped90 _ d2 h w ds1 ds2 hds1 hds2 x y hx hy]
    show readWord (applyTransform WlTransform.flipped90 src w h ss d1 ds1)
        (x * ds1 + 4 * y) = readWord src (y * ss + 4 * x)
    rw [applyTransform_cell WlTransform.flipped90 src d1 w h ss ds1 hss hds1 y x
        (by change y < h; omega) (by change x < w; omega)]
    rfl
  | flipped180 =>
    refine ⟨rfl, ?_⟩
    show readWord (applyTransform WlTransform.flipped180
        (applyTransform WlTransform.flipped180 src w h ss d1 ds1) w h ds1 d2 ds2)
        (y * ds2 + 4 * x) = readWord src (y * ss + 4 * x)
    rw [applyTransform_cell WlTransform.flipped180 _ d2 w h ds1 ds2 hds1 hds2 x y hx hy]
    show readWord (applyTransform WlTransform.flipped180 src w h ss d1 ds1)
        ((h - y - 1) * ds1 + 4 * x) = readWord src (y * ss + 4 * x)
    rw [applyTransform_cell WlTransform.flipped180 src d1 w h ss ds1 hss hds1 x (h - y - 1)
        (by change x < w; omega) (by change h - y - 1 < h; omega)]
    show readWord src ((h - (h - y - 1) - 1) * ss + 4 * x) = readWord src (y * ss + 4 * x)
    have e : h - (h - y - 1) - 1 = y := by omega
    rw [e]
  | flipped270 =>
    refine ⟨rfl, ?_⟩
    show readWord (applyTransform WlTransform.flipped270
        (applyTransform WlTransform.flipped270 src w h ss d1 ds1) h w ds1 d2 ds2)
        (y * ds2 + 4 * x) = readWord src (y * ss + 4 * x)
    rw [applyTransform_cell WlTransform.flipped270 _ d2 h w ds1 ds2 hds1 hds2 x y hx hy]
    show readWord (applyTransform WlTransform.flipped270 src w h ss d1 ds1)
        ((w - x - 1) * ds1 + 4 * (h - y - 1)) = readWord src (y * ss + 4 * x)
    rw [applyTransform_cell WlTransform.flipped270 src d1 w h ss ds1 hss hds1 (h - y - 1)
        (w - x - 1) (by change h - y - 1 < h; omega) (by change w - x - 1 < w; omega)]
    show readWord src ((h - (h - y - 1) - 1) * ss + 4 * (w - (w - x - 1) - 1))
        = readWord src (y * ss + 4 * x)
    have e1 : h - (h - y - 1) - 1 = y := by omega
    have e2 : w - (w - x - 1) - 1 = x := by omega
    rw [e1, e2]

/-- Witness for transform_roundtrip: the 90-degree transform of the 2-by-1
buffer exSrc, followed by the 270-degree transform, restores cell (0, 0). -/
theorem transform_roundtrip_witness :
    (4 * 2 ≤ 8 ∧ 4 * (transformDims WlTransform.rot90 2 1).1 ≤ 4 ∧ 4 * 2 ≤ 8)
    ∧ transformDims (invTransform WlTransform.rot90) (transformDims WlTransform.rot90 2 1).1
        (transformDims WlTransform.rot90 2 1).2 = (2, 1)
    ∧ readWord (applyTransform (invTransform WlTransform.rot90)
          (applyTransform WlTransform.rot90 exSrc 2 1 8 zeroMem 4)
          (transformDims WlTransform.rot90 2 1).1 (transformDims WlTransform.rot90 2 1).2
          4 zeroMem 8) (0 * 8 + 4 * 0)
        = readWord exSrc (0 * 8 + 4 * 0) :=
  ⟨⟨by decide, by decide, by decide⟩,
    transform_roundtrip WlTransform.rot90 exSrc zeroMem zeroMem 2 1 8 4 8
      (by decide) (by decide) (by decide) 0 0 (by decide) (by decide)⟩

theorem field4Lo (a b c d : Nat) (ha : a < 256) (hb : b < 256) (hc : c < 256) :
    (a + 256 * b + 65536 * c + 16777216 * d) % 256 = a := by omega

theorem field4Mid (a b c d : Nat) (ha : a < 256) (hb : b < 256) (hc : c < 256) :
    (a + 256 * b + 65536 * c + 16777216 * d) / 256 % 256 = b := by omega

theorem field4Hi (a b c d : Nat) (ha : a < 256) (hb : b < 256) (hc : c < 256) :
    (a + 256 * b + 65536 * c + 16777216 * d) / 65536 % 256 = c := by omega

/-- C7: the xrgb32 and xbgr32 kernels are channel-order swaps of each
other: a pixel whose little-endian source bytes are (b0, b1, b2, b3)
normalizes under the xbgr32 kernel to the same canonical word as the pixel
with bytes (b2, b1, b0, b3) under the xrgb32 kernel; in particular source
bytes (0x10, 0x20, 0x30, 0xFF) in XBGR order canonicalize to the same
result as (0x30, 0x20, 0x10, 0xFF) in XRGB order. -/
theorem channel_swap_pair (b0 b1 b2 b3 : Nat) (h0 : b0 < 256) (h1 : b1 < 256)
    (h2 : b2 < 256) (h3 : b3 < 256) :
    xbgr32Pix (b0 + 256 * b1 + 65536 * b2 + 16777216 * b3)
      = xrgb32Pix (b2 + 256 * b1 + 65536 * b0 + 16777216 * b3)
    ∧ xbgr32Pix (16 + 256 * 32 + 65536 * 48 + 16777216 * 255)
      = xrgb32Pix (48 + 256 * 32 + 65536 * 16 + 16777216 * 255) := by
  constructor
  · unfold xbgr32Pix xrgb32Pix
    rw [field4Lo b0 b1 b2 b3 h0 h1 h2, field4Mid b0 b1 b2 b3 h0 h1 h2,
      field4Hi b0 b1 b2 b3 h0 h1 h2, field4Lo b2 b1 b0 b3 h2 h1 h0,
      field4Mid b2 b1 b0 b3 h2 h1 h0, field4Hi b2 b1 b0 b3 h2 h1 h0]
  · decide

/-- Witness for channel_swap_pair at the concrete bytes named by the spec. -/
theorem channel_swap_pair_witness :
    (16 < 256 ∧ 32 < 256 ∧ 48 < 256 ∧ 255 < 256)
    ∧ xbgr32Pix (16 + 256 * 32 + 65536 * 48 + 16777216 * 255)
      = xrgb32Pix (48 + 256 * 32 + 65536 * 16 + 16777216 * 255) :=
  ⟨⟨by decide, by decide, by decide, by decide⟩,
    (channel_swap_pair 16 32 48 255 (by decide) (by decide) (by decide) (by decide)).1⟩

/-- Per-pixel implementation of the identity transform, written from the
spec's coordinate table: srcX = destX, srcY = destY for every destination
pixel. -/
def specPerPixelNormal (src : Mem) (ss ds w : Nat) (dest : Mem) (h : Nat) : Mem :=
  transformLoop (fun dx _ => dx) (fun _ dy => dy) src ss ds w dest h

/-- Per-pixel implementation of the flip+180 transform, written from the
spec's coordinate table: srcX = destX, srcY = destHeight - destY - 1 for
every destination pixel. -/
def specPerPixelFlipped180 (src : Mem) (ss ds w : Nat) (dest : Mem) (h : Nat) : Mem :=
  transformLoop (fun dx _ => dx) (fun _ dy => h - dy - 1) src ss ds w dest h

/-- C8: for the identity and flip+180 transforms, the memcpy row-copy fast
paths of the code produce output byte-identical (on every destination
4-byte pixel cell) to the per-pixel coordinate-map implementations,
whenever both strides satisfy the stride-covers-a-row precondition. -/
theorem fastpath_matches_perpixel (src d1 d2 : Mem) (w h ss ds : Nat)
    (hss : 4 * w ≤ ss) (hds : 4 * w ≤ ds) (dx dy : Nat) (hx : dx < w) (hy : dy < h) :
    readWord (applyTransform WlTransform.normal src w h ss d1 ds) (dy * ds + 4 * dx)
      = readWord (specPerPixelNormal src ss ds w d2 h) (dy * ds + 4 * dx)
    ∧ readWord (applyTransform WlTransform.flipped180 src w h ss d1 ds) (dy * ds + 4 * dx)
      = readWord (specPerPixelFlipped180 src ss ds w d2 h) (dy * ds + 4 * dx) := by
  constructor
  · rw [applyTransform_cell WlTransform.normal src d1 w h ss ds hss hds dx dy hx hy]
    unfold specPerPixelNormal transformLoop
    rw [copyRows_cell _ _ _ _ _ _ _ _ _ _ hds hx hy]
    rfl
  · rw [applyTransform_cell WlTransform.flipped180 src d1 w h ss ds hss hds dx dy hx hy]
    unfold specPerPixelFlipped180 transformLoop
    rw [copyRows_cell _ _ _ _ _ _ _ _ _ _ hds hx hy]
    rfl

/-- Witness for fastpath_matches_perpixel at a concrete input. -/
theorem fastpath_matches_perpixel_witness :
    (4 * 2 ≤ 8 ∧ 4 * 2 ≤ 8)
    ∧ readWord (applyTransform WlTransform.normal exSrc 2 1 8 zeroMem 8) (0 * 8 + 4 * 1)
        = readWord (specPerPixelNormal exSrc 8 8 2 zeroMem 1) (0 * 8 + 4 * 1)
    ∧ readWord (applyTransform WlTransform.flipped180 exSrc 2 1 8 zeroMem 8) (0 * 8 + 4 * 1)
        = readWord (specPerPixelFlipped180 exSrc 8 8 2 zeroMem 1) (0 * 8 + 4 * 1) :=
  ⟨⟨by decide, by decide⟩,
    fastpath_matches_perpixel exSrc zeroMem zeroMem 2 1 8 8
      (by decide) (by decide) 1 0 (by decide) (by decide)⟩

/-- C9: parse_background_mode matches each of the six fixed keywords
exactly, returning the corresponding mode without logging, and every other
string yields the invalid sentinel together with a logged error; the
function is total, so it never aborts. -/
theorem parse_background_mode_spec :
    parse_background_mode "stretch" = (BackgroundMode.stretch, false)
    ∧ parse_background_mode "fill" = (BackgroundMode.fill, false)
    ∧ parse_background_mode "fit" = (BackgroundMode.fit, false)
    ∧ parse_background_mode "center" = (BackgroundMode.center, false)
    ∧ parse_background_mode "tile" = (BackgroundMode.tile, false)
    ∧ parse_background_mode "solid_color" = (BackgroundMode.solid_color, false)
    ∧ ∀ s : String, s ≠ "stretch" → s ≠ "fill" → s ≠ "fit" → s ≠ "center" →
        s ≠ "tile" → s ≠ "solid_color" →
        parse_background_mode s = (BackgroundMode.invalid, true) := by
  refine ⟨by decide, by decide, by decide, by decide, by decide, by decide, ?_⟩
  intro s h1 h2 h3 h4 h5 h6
  simp [parse_background_mode, h1, h2, h3, h4, h5, h6]

/-- Witness for parse_background_mode_spec: the unrecognized string bogus
maps to the invalid sentinel with an error logged. -/
theorem parse_background_mode_spec_witness :
    ("bogus" : String) ≠ "stretch"
    ∧ parse_background_mode "bogus" = (BackgroundMode.invalid, true) :=
  ⟨by decide,
    parse_background_mode_spec.2.2.2.2.2.2 "bogus" (by decide) (by decide) (by decide)
      (by decide) (by decide) (by decide)⟩

/-- A buffer whose bytes are all 0xFF, in particular with a fully opaque
alpha byte in every pixel. -/
def exFF : Mem := fun _ => 255

/-- C10 counterexample: source alpha is not discarded for every
alpha-carrying format.  ARGB8888 is dispatched to the same path as
XRGB8888, and on a little-endian host that path applies no kernel at all,
so the most significant byte (the alpha byte) of an all-0xFF ARGB8888
pixel is still 255, not 0, after normalization. -/
theorem alpha_kept_argb8888_le_counterexample :
    rd (normalizeFormat WlShmFormat.argb8888 true exFF 1 1 4) 3 = 255
    ∧ rd (normalizeFormat WlShmFormat.argb8888 true exFF 1 1 4) 3 ≠ 0 := by
  constructor <;> decide

/-- C10 (amended): every normalization kernel that actually runs leaves
the most significant byte (bits 31 to 24) of every processed pixel word
zero, and each alpha-carrying format is dispatched to the same kernel as
its X counterpart, so alpha is overwritten with zero for those formats;
the exception is the XRGB8888 / ARGB8888 / unknown path, which on a
little-endian host applies no kernel and therefore leaves the alpha byte
in place (the RGB24 surface merely ignores it), and only runs the xrgb32
kernel on a big-endian host. -/
theorem kernels_zero_msb (le : Bool) (m : Mem) (w h s : Nat) (hs : 4 * w ≤ s)
    (x y : Nat) (hx : x < w) (hy : y < h) :
    readWord (pixKernel xrgb32Pix m w h s) (y * s + 4 * x) / 16777216 = 0
    ∧ readWord (pixKernel xbgr32Pix m w h s) (y * s + 4 * x) / 16777216 = 0
    ∧ readWord (pixKernel xrgb2101010Pix m w h s) (y * s + 4 * x) / 16777216 = 0
    ∧ readWord (pixKernel xbgr2101010Pix m w h s) (y * s + 4 * x) / 16777216 = 0
    ∧ readWord (pixKernel rgbx1010102Pix m w h s) (y * s + 4 * x) / 16777216 = 0
    ∧ readWord (pixKernel bgrx1010102Pix m w h s) (y * s + 4 * x) / 16777216 = 0
    ∧ readWord (pixKernel swapRbPix m w h s) (y * s + 4 * x) / 16777216 = 0
    ∧ readWord (bgr888Kernel m w h s) (y * s + 4 * x) / 16777216 = 0
    ∧ readWord (normalizeFormat WlShmFormat.rgb888 le m w h s) (y * s + 4 * x)
        / 16777216 = 0
    ∧ normalizeFormat WlShmFormat.argb8888 le m w h s
        = normalizeFormat WlShmFormat.xrgb8888 le m w h s
    ∧ normalizeFormat WlShmFormat.abgr8888 le m w h s
        = normalizeFormat WlShmFormat.xbgr8888 le m w h s
    ∧ normalizeFormat WlShmFormat.argb2101010 le m w h s
        = normalizeFormat WlShmFormat.xrgb2101010 le m w h s
    ∧ normalizeFormat WlShmFormat.abgr2101010 le m w h s
        = normalizeFormat WlShmFormat.xbgr2101010 le m w h s
    ∧ normalizeFormat WlShmFormat.rgba1010102 le m w h s
        = normalizeFormat WlShmFormat.rgbx1010102 le m w h s
    ∧ normalizeFormat WlShmFormat.bgra1010102 le m w h s
        = normalizeFormat WlShmFormat.bgrx1010102 le m w h s
    ∧ normalizeFormat WlShmFormat.xbgr8888 le m w h s = pixKernel xbgr32Pix m w h s
    ∧ normalizeFormat WlShmFormat.xrgb2101010 le m w h s = pixKernel xrgb2101010Pix m w h s
    ∧ normalizeFormat WlShmFormat.xbgr2101010 le m w h s = pixKernel xbgr2101010Pix m w h s
    ∧ normalizeFormat WlShmFormat.rgbx1010102 le m w h s = pixKernel rgbx1010102Pix m w h s
    ∧ normalizeFormat WlShmFormat.bgrx1010102 le m w h s = pixKernel bgrx1010102Pix m w h s
    ∧ normalizeFormat WlShmFormat.bgr888 le m w h s = bgr888Kernel m w h s
    ∧ (le = true → normalizeFormat WlShmFormat.xrgb8888 le m w h s = m)
    ∧ (le = false → normalizeFormat WlShmFormat.xrgb8888 le m w h s
        = pixKernel xrgb32Pix m w h s)
    ∧ normalizeFormat WlShmFormat.unknown le m w h s
        = normalizeFormat WlShmFormat.xrgb8888 le m w h s := by
  have k1 := pixKernel_cell xrgb32Pix m w h s x y hs hx hy
  have k2 := pixKernel_cell xbgr32Pix m w h s x y hs hx hy
  have k3 := pixKernel_cell xrgb2101010Pix m w h s x y hs hx hy
  have k4 := pixKernel_cell xbgr2101010Pix m w h s x y hs hx hy
  have k5 := pixKernel_cell rgbx1010102Pix m w h s x y hs hx hy
  have k6 := pixKernel_cell bgrx1010102Pix m w h s x y hs hx hy
  have k7 := pixKernel_cell swapRbPix m w h s x y hs hx hy
  have k8 : readWord (bgr888Kernel m w h s) (y * s + 4 * x)
      = rd m (y * s + 3 * x) * 65536 + rd m (y * s + 3 * x + 1) * 256
          + rd m (y * s + 3 * x + 2) := bgr888Rows_cell s w m h x y hs hx hy
  have k9 := pixKernel_cell swapRbPix (bgr888Kernel m w h s) w h s x y hs hx hy
  have b1 := xrgb32Pix_lt (readWord m (y * s + 4 * x))
  have b2 := xbgr32Pix_lt (readWord m (y * s + 4 * x))
  have b3 := xrgb2101010Pix_lt (readWord m (y * s + 4 * x))
  have b4 := xbgr2101010Pix_lt (readWord m (y * s + 4 * x))
  have b5 := rgbx1010102Pix_lt (readWord m (y * s + 4 * x))
  have b6 := bgrx1010102Pix_lt (readWord m (y * s + 4 * x))
  have b7 := swapRbPix_lt (readWord m (y * s + 4 * x))
  have b9 := swapRbPix_lt (readWord (bgr888Kernel m w h s) (y * s + 4 * x))
  have r1 := rd_lt m (y * s + 3 * x)
  have r2 := rd_lt m (y * s + 3 * x + 1)
  have r3 := rd_lt m (y * s + 3 * x + 2)
  refine ⟨by omega, by omega, by omega, by omega, by omega, by omega, by omega, by omega,
    ?_, rfl, rfl, rfl, rfl, rfl, rfl, rfl, rfl, rfl, rfl, rfl, rfl,
    fun hle => by rw [hle]; rfl, fun hle => by rw [hle]; rfl, rfl⟩
  show readWord (pixKernel swapRbPix (bgr888Kernel m w h s) w h s) (y * s + 4 * x)
      / 16777216 = 0
  omega

/-- Witness for kernels_zero_msb at a concrete input. -/
theorem kernels_zero_msb_witness :
    4 * 1 ≤ 4
    ∧ readWord (pixKernel xrgb32Pix exFF 1 1 4) (0 * 4 + 4 * 0) / 16777216 = 0 :=
  ⟨by decide, (kernels_zero_msb true exFF 1 1 4 (by decide) 0 0 (by decide) (by decide)).1⟩

end Swaylock
